import Mathlib

/-!
Verification of the KowinWm compositor core against its specification.

The definitions below are a shallow embedding of the Rust sources:
  * `src/utils/layout.rs`     — master-stack layout (`MasterStack::placement`)
  * `src/utils/workspaces.rs` — workspaces, window table, spatial search
  * `src/handlers/xdg.rs`     — fullscreen / unfullscreen handlers
  * `src/utils/action.rs`     — keybinding actions
  * `src/state.rs`            — `State::refresh_layout`
  * `src/udev/surface.rs`     — `State::render` control flow
  * `src/udev/mod.rs`         — `State::on_drm_event` (vblank)

Machine integers (`i32`, `usize`) are modelled as `Int` / `Nat`; Rust's
`/` on `i32` truncates toward zero and is rendered as `Int.tdiv`.
Fallible operations (`unwrap`, indexing) are modelled with `Option`:
`none` stands for a panic of the original code.
-/

namespace KowinWm

/-- A logical point (`Point<i32, Logical>` in smithay). -/
structure Pt where
  x : Int
  y : Int
deriving DecidableEq, Repr

/-- A logical size (`Size<i32, Logical>`). -/
structure Sz where
  w : Int
  h : Int
deriving DecidableEq, Repr

/-- A logical rectangle (`Rectangle<i32, Logical>`). -/
structure Rect where
  loc : Pt
  size : Sz
deriving DecidableEq, Repr

/-- `WindowMode` from `src/utils/workspaces.rs` (the `Grabed` variant also
carries a rectangle in the source; it is irrelevant to every claim and kept
faithful here). -/
inductive WindowMode where
  | tiled
  | floating
  | grabed (r : Rect)
  | fullscreen (r : Rect)
deriving DecidableEq, Repr

/-- `Direction` from `src/utils/action.rs`. -/
inductive Direction where
  | left
  | right
  | top
  | down
deriving DecidableEq, Repr

/-! ## Master-stack layout (`src/utils/layout.rs`, `MasterStack::placement`)

Windows are opaque identities; the layout never inspects them, so the
embedding is generic in the window type.  The Rust loop
`for (i, window) in windows.enumerate()` pushing one `Placement` per window
is rendered as a structural recursion carrying the index `i`. -/

/-- The body of the placement loop: the geometry computed for index `i`,
mirroring the mutation sequence of the source (initialise to the full
area, halve the width when `count > 1`, and overwrite `x`, `y`, `width`,
`height` when `i > 0`). -/
def msGeometry (area : Rect) (count half_width stack_height : Int) (i : Nat) : Rect :=
  if i > 0 then
    { loc := { x := area.loc.x + half_width
               y := area.loc.y + stack_height * ((i : Int) - 1) }
      size := { w := half_width, h := stack_height } }
  else
    { loc := { x := area.loc.x, y := area.loc.y }
      size := { w := if count > 1 then half_width else area.size.w
                h := area.size.h } }

/-- The enumeration loop of `MasterStack::placement`. -/
def msLoop (area : Rect) (count half_width stack_height : Int) :
    Nat → List α → List (α × Rect)
  | _, [] => []
  | i, w :: rest =>
      (w, msGeometry area count half_width stack_height i) ::
        msLoop area count half_width stack_height (i + 1) rest

/-- `MasterStack::placement`: `count` is the window count, `half_width` is
`area.size.w / 2` and `stack_height` is `area.size.h / (count - 1)` when
`count > 1` (Rust `i32` division truncates toward zero, hence `Int.tdiv`). -/
def placement (windows : List α) (area : Rect) : List (α × Rect) :=
  let count : Int := windows.length
  let half_width : Int := area.size.w.tdiv 2
  let stack_height : Int :=
    if count > 1 then area.size.h.tdiv (count - 1) else area.size.h
  msLoop area count half_width stack_height 0 windows

theorem msLoop_length (area : Rect) (c hw sh : Int) (i : Nat) (l : List α) :
    (msLoop area c hw sh i l).length = l.length := by
  induction l generalizing i with
  | nil => rfl
  | cons w rest ih => simp [msLoop, ih]

theorem msLoop_getElem (area : Rect) (c hw sh : Int) (i : Nat) (l : List α)
    (j : Nat) (hj : j < l.length)
    (hj2 : j < (msLoop area c hw sh i l).length) :
    (msLoop area c hw sh i l)[j] = (l[j], msGeometry area c hw sh (i + j)) := by
  induction l generalizing i j with
  | nil => simp at hj
  | cons w rest ih =>
      cases j with
      | zero => simp [msLoop]
      | succ j' =>
          have hj' : j' < rest.length := by simpa using hj
          simp only [msLoop, List.getElem_cons_succ]
          rw [ih (i + 1) j' hj' (by rw [msLoop_length]; exact hj')]
          have harith : i + 1 + j' = i + (j' + 1) := by omega
          rw [harith]

theorem placement_length (windows : List α) (area : Rect) :
    (placement windows area).length = windows.length := by
  simp [placement, msLoop_length]

theorem msLoop_map_fst (area : Rect) (c hw sh : Int) (i : Nat) (l : List α) :
    (msLoop area c hw sh i l).map Prod.fst = l := by
  induction l generalizing i with
  | nil => rfl
  | cons w rest ih => simp [msLoop, ih]

theorem placement_getElem (ws : List α) (A : Rect) (j : Nat)
    (hj : j < ws.length) (hj2 : j < (placement ws A).length) :
    (placement ws A)[j] =
      (ws[j],
        msGeometry A ws.length (A.size.w.tdiv 2)
          (if ((ws.length : Nat) : Int) > 1 then
            A.size.h.tdiv (((ws.length : Nat) : Int) - 1)
           else A.size.h) j) := by
  have h := msLoop_getElem A ((ws.length : Nat) : Int) (A.size.w.tdiv 2)
      (if ((ws.length : Nat) : Int) > 1 then
        A.size.h.tdiv (((ws.length : Nat) : Int) - 1)
       else A.size.h) 0 ws j hj
      (by rw [msLoop_length]; exact hj)
  rw [Nat.zero_add] at h
  exact h

/-- C1: `MasterStack::placement` returns one rectangle per window in input
order; for `N = 1` the single rectangle equals `A`; for `N > 1` window 0
gets location `(A.x, A.y)`, width `A.width / 2` and height `A.height`, and
every window `i ≥ 1` gets location
`(A.x + A.width/2, A.y + (i-1) * (A.height/(N-1)))`, width `A.width / 2`
and height `A.height / (N-1)`; for `N = 0` the result is empty. -/
theorem masterStack_placement_correct {α : Type} (ws : List α) (A : Rect) :
    ((placement ws A).map Prod.fst = ws) ∧
    (ws = [] → placement ws A = []) ∧
    (∀ w : α, ws = [w] → placement ws A = [(w, A)]) ∧
    (1 < ws.length →
      (∀ (h0 : 0 < ws.length) (h0p : 0 < (placement ws A).length),
        (placement ws A)[0] =
          (ws[0], ⟨⟨A.loc.x, A.loc.y⟩, ⟨A.size.w.tdiv 2, A.size.h⟩⟩)) ∧
      (∀ i, ∀ (hi : i < ws.length) (hip : i < (placement ws A).length), 1 ≤ i →
        (placement ws A)[i] =
          (ws[i],
            ⟨⟨A.loc.x + A.size.w.tdiv 2,
              A.loc.y + ((i : Int) - 1) * (A.size.h.tdiv ((ws.length : Int) - 1))⟩,
             ⟨A.size.w.tdiv 2, A.size.h.tdiv ((ws.length : Int) - 1)⟩⟩))) := by
  refine ⟨msLoop_map_fst _ _ _ _ _ _, ?_, ?_, ?_⟩
  · rintro rfl; rfl
  · rintro w rfl
    show [(w, msGeometry _ _ _ _ 0)] = [(w, A)]
    simp [msGeometry]
  · intro hlen
    have hc : (1 : Int) < (ws.length : Int) := by exact_mod_cast hlen
    constructor
    · intro h0 h0p
      rw [placement_getElem ws A 0 h0 h0p]
      simp [msGeometry, hc]
    · intro i hi hip hi1
      rw [placement_getElem ws A i hi hip]
      have hipos : 0 < i := hi1
      simp only [msGeometry, if_pos hipos, if_pos hc]
      exact congrArg _ (by rw [mul_comm])

/-- Witness for C1 at `N = 3`, area `100 × 60` at the origin. -/
theorem masterStack_placement_correct_witness :
    (placement ([0, 1, 2] : List Nat) ⟨⟨0, 0⟩, ⟨100, 60⟩⟩).get ⟨2, by decide⟩ =
      (2, ⟨⟨50, 30⟩, ⟨50, 30⟩⟩) := by
  have h :=
    (masterStack_placement_correct ([0, 1, 2] : List Nat)
      ⟨⟨0, 0⟩, ⟨100, 60⟩⟩).2.2.2 (by decide)
  have h2 := h.2 2 (by decide) (by decide) (by decide)
  rw [List.get_eq_getElem, h2]
  decide

/-! ## Workspaces (`src/utils/workspaces.rs`)

A `Space<Window>` is modelled as an association list from window identity
(a `Nat`) to its mapped location, in element-iteration order.  Stacking
(`raise_element`, the `activate` flag of `map_element`) is not modelled;
it affects no claim.  Rust's `self.workspaces[self.active_workspace]`
panics when the index is out of range; the embedding uses `List.getD` and
every theorem carries the `active_workspace < workspaces.length`
hypothesis under which the default is never consulted. -/

/-- Association-list lookup, first match (`Space::element_location`,
`UserDataMap::get`). -/
def lookupEntry (l : List (Nat × β)) (w : Nat) : Option β :=
  (l.find? (fun p => p.1 == w)).map Prod.snd

/-- `Space::map_element`: update the location of an already-mapped element
in place, append a fresh one at the end. -/
def mapElement (elems : List (Nat × Pt)) (w : Nat) (loc : Pt) : List (Nat × Pt) :=
  if elems.any (fun p => p.1 == w) then
    elems.map (fun p => if p.1 == w then (w, loc) else p)
  else elems ++ [(w, loc)]

/-- `Space::unmap_elem`. -/
def unmapElem (elems : List (Nat × Pt)) (w : Nat) : List (Nat × Pt) :=
  elems.filter (fun p => p.1 != w)

/-- `Workspace` (the layout and full-geometry fields of the source are
irrelevant to the workspace-manager claims and omitted here; the window
mode table lives in the per-window user data, modelled separately). -/
structure Workspace where
  elems : List (Nat × Pt)
  active_window : Option Nat
  prev_window : Option Nat
deriving DecidableEq, Repr

instance : Inhabited Workspace := ⟨⟨[], none, none⟩⟩

/-- `Workspaces`. -/
structure Workspaces where
  workspaces : List Workspace
  active_workspace : Nat
  prev_workspace : Nat
deriving DecidableEq, Repr

/-- `Workspaces::get_current` (Rust indexing; `getD` + bounds hypothesis). -/
def getCurrent (s : Workspaces) : Workspace :=
  s.workspaces.getD s.active_workspace default

/-- Writing back the mutated current workspace. -/
def setCurrent (s : Workspaces) (ws : Workspace) : Workspaces :=
  { s with workspaces := s.workspaces.set s.active_workspace ws }

/-- `Workspaces::get_active_window`. -/
def getActiveWindow (s : Workspaces) : Option Nat :=
  (getCurrent s).active_window

/-- `Workspaces::set_active_workspace`. -/
def setActiveWorkspace (s : Workspaces) (workspace : Nat) : Workspaces :=
  if workspace ≥ s.workspaces.length then s
  else { s with prev_workspace := s.active_workspace, active_workspace := workspace }

/-- `Workspaces::insert_window`. -/
def insertWindow (s : Workspaces) (window : Nat) : Workspaces :=
  let ws := getCurrent s
  setCurrent s { ws with active_window := some window
                         elems := mapElement ws.elems window ⟨0, 0⟩ }

/-- `Workspaces::remove_window`. -/
def removeWindow (s : Workspaces) (window : Nat) : Workspaces :=
  let ws := getCurrent s
  setCurrent s { ws with elems := unmapElem ws.elems window
                         active_window := none }

/-- `Workspaces::move_window_to_ws`. -/
def moveWindowToWs (s : Workspaces) (ws_index : Nat) : Workspaces :=
  if s.active_workspace = ws_index then s
  else
    match getActiveWindow s with
    | none => s
    | some active =>
        let loc := lookupEntry (getCurrent s).elems active
        let s1 := setCurrent s
          { getCurrent s with elems := unmapElem (getCurrent s).elems active }
        let s2 := setActiveWorkspace s1 ws_index
        let s3 := insertWindow s2 active
        match loc with
        | some l =>
            setCurrent s3
              { getCurrent s3 with elems := mapElement (getCurrent s3).elems active l }
        | none => s3

/-- `Action::execute` for `Action::Workspace { index }`: the target is
`index - 1` on `usize` with no guard; `index = 0` underflows, which panics
(overflow-checked subtraction), modelled as `none`. -/
def workspaceAction (s : Workspaces) (index : Nat) : Option Workspaces :=
  if index = 0 then none
  else some (setActiveWorkspace s (index - 1))

/-- `Action::execute` for `Action::MoveToWorkspace { index }` (same
unguarded `index - 1`). -/
def moveToWorkspaceAction (s : Workspaces) (index : Nat) : Option Workspaces :=
  if index = 0 then none
  else some (moveWindowToWs s (index - 1))

/-- How many entries of the element list carry window `w`. -/
def countWindow (elems : List (Nat × Pt)) (w : Nat) : Nat :=
  (elems.filter (fun p => p.1 == w)).length

/-- How many times window `w` is mapped in workspace `k`. -/
def countInWs (s : Workspaces) (k w : Nat) : Nat :=
  countWindow (s.workspaces.getD k default).elems w

/-- Window `w` belongs to at most one workspace of `s`. -/
def atMostOneWs (s : Workspaces) (w : Nat) : Prop :=
  ∀ k1 k2, k1 < s.workspaces.length → k2 < s.workspaces.length →
    0 < countInWs s k1 w → 0 < countInWs s k2 w → k1 = k2

theorem getD_set_self (l : List α) (i : Nat) (a d : α) (h : i < l.length) :
    (l.set i a).getD i d = a := by
  induction l generalizing i with
  | nil => simp at h
  | cons x xs ih =>
      cases i with
      | zero => rfl
      | succ i' => exact ih i' (by simpa using h)

theorem getD_set_ne (l : List α) (i j : Nat) (a d : α) (h : i ≠ j) :
    (l.set i a).getD j d = l.getD j d := by
  induction l generalizing i j with
  | nil => simp [List.set]
  | cons x xs ih =>
      cases i with
      | zero =>
          cases j with
          | zero => exact absurd rfl h
          | succ j' => rfl
      | succ i' =>
          cases j with
          | zero => rfl
          | succ j' => exact ih i' j' (by omega)

theorem countWindow_unmap_self (l : List (Nat × Pt)) (w : Nat) :
    countWindow (unmapElem l w) w = 0 := by
  induction l with
  | nil => rfl
  | cons p rest ih =>
      by_cases hp : p.1 = w
      · simp only [unmapElem, List.filter_cons] at ih ⊢
        simp only [countWindow] at ih
        simp [countWindow, hp, ih]
      · simp only [unmapElem, List.filter_cons] at ih ⊢
        simp only [countWindow] at ih
        simp [countWindow, hp, ih]

theorem countWindow_pos_iff_any (l : List (Nat × Pt)) (w : Nat) :
    0 < countWindow l w ↔ l.any (fun p => p.1 == w) = true := by
  induction l with
  | nil => simp [countWindow]
  | cons p rest ih =>
      by_cases hp : p.1 = w
      · simp [countWindow, hp]
      · simpa [countWindow, hp] using ih

theorem countWindow_map_congr (l : List (Nat × Pt)) (w : Nat)
    (f : Nat × Pt → Nat × Pt) (hf : ∀ p, ((f p).1 == w) = (p.1 == w)) :
    countWindow (l.map f) w = countWindow l w := by
  induction l with
  | nil => rfl
  | cons p rest ih =>
      simp only [List.map_cons, countWindow, List.filter_cons, hf p]
      cases hb : (p.1 == w) with
      | false => simpa [countWindow] using ih
      | true => simpa [countWindow] using ih

theorem countWindow_mapReplace_self (l : List (Nat × Pt)) (w : Nat) (loc : Pt) :
    countWindow (l.map (fun p => if p.1 == w then (w, loc) else p)) w =
      countWindow l w := by
  refine countWindow_map_congr l w _ ?_
  intro p
  by_cases hp : p.1 = w <;> simp [hp]

theorem countWindow_mapReplace_ne (l : List (Nat × Pt)) (w w' : Nat) (loc : Pt)
    (h : w' ≠ w) :
    countWindow (l.map (fun p => if p.1 == w' then (w', loc) else p)) w =
      countWindow l w := by
  refine countWindow_map_congr l w _ ?_
  intro p
  by_cases hp : p.1 = w'
  · have hpw : ¬ p.1 = w := by rw [hp]; exact h
    simp [hp, hpw, h]
  · simp [hp]

theorem countWindow_mapElement_self (l : List (Nat × Pt)) (w : Nat) (loc : Pt) :
    countWindow (mapElement l w loc) w =
      if 0 < countWindow l w then countWindow l w else 1 := by
  by_cases hany : l.any (fun p => p.1 == w) = true
  · rw [if_pos ((countWindow_pos_iff_any l w).mpr hany)]
    simp only [mapElement, if_pos hany]
    exact countWindow_mapReplace_self l w loc
  · have h0 : ¬ 0 < countWindow l w := by
      rw [countWindow_pos_iff_any]; exact hany
    rw [if_neg h0]
    simp only [mapElement, if_neg hany, countWindow, List.filter_append]
    have : countWindow l w = 0 := by omega
    simpa [countWindow] using this

theorem countWindow_mapElement_ne (l : List (Nat × Pt)) (w w' : Nat) (loc : Pt)
    (h : w' ≠ w) :
    countWindow (mapElement l w' loc) w = countWindow l w := by
  by_cases hany : l.any (fun p => p.1 == w') = true
  · simp only [mapElement, if_pos hany]
    exact countWindow_mapReplace_ne l w w' loc h
  · simp only [mapElement, if_neg hany, countWindow, List.filter_append]
    simp [h]

theorem lookupEntry_isSome_of_pos (l : List (Nat × Pt)) (w : Nat)
    (h : 0 < countWindow l w) : (lookupEntry l w).isSome := by
  induction l with
  | nil => simp [countWindow] at h
  | cons p rest ih =>
      by_cases hp : p.1 = w
      · simp [lookupEntry, List.find?_cons_of_pos, hp]
      · have h' : 0 < countWindow rest w := by
          simpa [countWindow, List.filter_cons, hp] using h
        simpa [lookupEntry, List.find?_cons_of_neg, hp] using ih h'

theorem countInWs_setCurrent_self (s : Workspaces) (ws : Workspace) (w : Nat)
    (h : s.active_workspace < s.workspaces.length) :
    countInWs (setCurrent s ws) s.active_workspace w = countWindow ws.elems w := by
  simp only [countInWs, setCurrent]
  rw [getD_set_self _ _ _ _ h]

theorem countInWs_setCurrent_ne (s : Workspaces) (ws : Workspace) (w k : Nat)
    (h : k ≠ s.active_workspace) :
    countInWs (setCurrent s ws) k w = countInWs s k w := by
  simp only [countInWs, setCurrent]
  rw [getD_set_ne _ _ _ _ _ (Ne.symm h)]

/-- C10: `Action::Workspace { index }` and `Action::MoveToWorkspace { index }`
compute the target as `index - 1` on an unsigned integer with no guard: for
`index ≥ 1` they target workspace `index - 1` (with out-of-range targets
silently ignored by `set_active_workspace`'s bounds check), while
`index = 0` underflows and panics. -/
theorem workspace_action_underflow (s : Workspaces) (index : Nat) :
    (1 ≤ index →
      workspaceAction s index = some (setActiveWorkspace s (index - 1)) ∧
      moveToWorkspaceAction s index = some (moveWindowToWs s (index - 1))) ∧
    (∀ t, s.workspaces.length ≤ t → setActiveWorkspace s t = s) ∧
    workspaceAction s 0 = none ∧
    moveToWorkspaceAction s 0 = none := by
  refine ⟨?_, ?_, rfl, rfl⟩
  · intro h
    have h0 : index ≠ 0 := by omega
    simp [workspaceAction, moveToWorkspaceAction, h0]
  · intro t ht
    simp [setActiveWorkspace, ht]

/-- Witness for C10 on a one-workspace state. -/
theorem workspace_action_underflow_witness :
    workspaceAction ⟨[⟨[], none, none⟩], 0, 0⟩ 0 = none ∧
    setActiveWorkspace ⟨[⟨[], none, none⟩], 0, 0⟩ 3 = ⟨[⟨[], none, none⟩], 0, 0⟩ ∧
    workspaceAction ⟨[⟨[], none, none⟩], 0, 0⟩ 1 =
      some (setActiveWorkspace ⟨[⟨[], none, none⟩], 0, 0⟩ 0) := by
  have h := workspace_action_underflow ⟨[⟨[], none, none⟩], 0, 0⟩ 1
  exact ⟨h.2.2.1, h.2.1 3 (by decide), (h.1 (by decide)).1⟩

/-- C9: `remove_window` sets the current workspace's active-window reference
to `None` unconditionally, even when the removed window was not the active
one. -/
theorem remove_window_clears_active (s : Workspaces) (w : Nat)
    (hlt : s.active_workspace < s.workspaces.length)
    (hnotactive : getActiveWindow s ≠ some w) :
    getActiveWindow (removeWindow s w) = none := by
  simp only [getActiveWindow, removeWindow, getCurrent, setCurrent]
  rw [getD_set_self _ _ _ _ hlt]

/-- Witness for C9: removing the non-active window 5 clears the active
reference (which pointed at window 3). -/
theorem remove_window_clears_active_witness :
    getActiveWindow
      (removeWindow ⟨[⟨[(3, ⟨0, 0⟩), (5, ⟨1, 1⟩)], some 3, none⟩], 0, 0⟩ 5) = none :=
  remove_window_clears_active ⟨[⟨[(3, ⟨0, 0⟩), (5, ⟨1, 1⟩)], some 3, none⟩], 0, 0⟩ 5
    (by decide) (by decide)

/-- A two-workspace state where window 7 lives on workspace 1 while
workspace 0 is current. -/
def c7State : Workspaces :=
  ⟨[⟨[], none, none⟩, ⟨[(7, ⟨0, 0⟩)], none, none⟩], 0, 0⟩

/-- C7 counterexample: `remove_window(7)` does not remove window 7 from
workspace 1 (which holds it), because the operation only ever touches the
current workspace. -/
theorem remove_window_counterexample :
    0 < countInWs (removeWindow c7State 7) 1 7 := by decide

/-- C7 amended: `remove_window(w)` removes `w` from the **current**
workspace only, unconditionally clears the current workspace's
active-window reference, and leaves every other workspace — including one
that actually holds `w` — untouched. -/
theorem remove_window_current_only (s : Workspaces) (w : Nat)
    (hlt : s.active_workspace < s.workspaces.length) :
    countInWs (removeWindow s w) s.active_workspace w = 0 ∧
    (getCurrent (removeWindow s w)).active_window = none ∧
    ∀ k, k ≠ s.active_workspace →
      (removeWindow s w).workspaces.getD k default = s.workspaces.getD k default := by
  refine ⟨?_, ?_, ?_⟩
  · simp only [removeWindow]
    rw [countInWs_setCurrent_self _ _ _ hlt]
    exact countWindow_unmap_self _ _
  · simp only [removeWindow, getCurrent, setCurrent]
    rw [getD_set_self _ _ _ _ hlt]
  · intro k hk
    simp only [removeWindow, setCurrent]
    exact getD_set_ne _ _ _ _ _ (Ne.symm hk)

/-- Witness for the amended C7 on `c7State`. -/
theorem remove_window_current_only_witness :
    countInWs (removeWindow c7State 7) 0 7 = 0 ∧
    (getCurrent (removeWindow c7State 7)).active_window = none ∧
    (removeWindow c7State 7).workspaces.getD 1 default =
      c7State.workspaces.getD 1 default := by
  have h := remove_window_current_only c7State 7 (by decide)
  exact ⟨h.1, h.2.1, h.2.2 1 (by decide)⟩

/-- C6: from current workspace `i` with active window `w`, a move to a valid
target `j ≠ i` removes `w` from `i`, inserts it into `j` exactly once,
switches the active workspace to `j`, and no intermediate state of the
operation has `w` in two workspaces; moving to the current workspace is a
no-op. -/
theorem move_window_to_ws_isolation (s : Workspaces) (j w : Nat)
    (hi : s.active_workspace < s.workspaces.length)
    (hj : j < s.workspaces.length)
    (hne : s.active_workspace ≠ j)
    (hact : getActiveWindow s = some w)
    (hcur : countInWs s s.active_workspace w = 1)
    (hothers : ∀ k, k ≠ s.active_workspace → countInWs s k w = 0) :
    moveWindowToWs s s.active_workspace = s ∧
    (moveWindowToWs s j).active_workspace = j ∧
    countInWs (moveWindowToWs s j) j w = 1 ∧
    countInWs (moveWindowToWs s j) s.active_workspace w = 0 ∧
    (let s1 := setCurrent s
        { getCurrent s with elems := unmapElem (getCurrent s).elems w };
     let s2 := setActiveWorkspace s1 j;
     let s3 := insertWindow s2 w;
     atMostOneWs s1 w ∧ atMostOneWs s2 w ∧ atMostOneWs s3 w) ∧
    atMostOneWs (moveWindowToWs s j) w := by
  -- the saved location of the active window exists, since `w` is mapped
  have hcnt : 0 < countWindow (getCurrent s).elems w := by
    have : countInWs s s.active_workspace w = countWindow (getCurrent s).elems w := rfl
    omega
  obtain ⟨l, hl⟩ : ∃ l, lookupEntry (getCurrent s).elems w = some l := by
    have h := lookupEntry_isSome_of_pos _ _ hcnt
    cases he : lookupEntry (getCurrent s).elems w with
    | none => rw [he] at h; simp at h
    | some l => exact ⟨l, rfl⟩
  -- name the intermediate states
  set s1 : Workspaces := setCurrent s
      { getCurrent s with elems := unmapElem (getCurrent s).elems w } with hs1
  set s2 : Workspaces := setActiveWorkspace s1 j with hs2
  set s3 : Workspaces := insertWindow s2 w with hs3
  have hlen1 : s1.workspaces.length = s.workspaces.length := by
    simp [hs1, setCurrent]
  have hact1 : s1.active_workspace = s.active_workspace := by
    simp [hs1, setCurrent]
  have hnotge : ¬ j ≥ s1.workspaces.length := by omega
  have hs2' : s2.workspaces = s1.workspaces ∧ s2.active_workspace = j := by
    rw [hs2]; simp [setActiveWorkspace, hnotge]
  have hred : moveWindowToWs s j =
      setCurrent s3 { getCurrent s3 with
                      elems := mapElement (getCurrent s3).elems w l } := by
    rw [hs3, hs2, hs1]
    simp only [moveWindowToWs, hne, hact, hl, ite_false]
  -- counts of `w` in each workspace after each step
  have hc1 : ∀ k, countInWs s1 k w = 0 := by
    intro k
    by_cases hk : k = s.active_workspace
    · subst hk
      rw [hs1, countInWs_setCurrent_self _ _ _ hi]
      exact countWindow_unmap_self _ _
    · rw [hs1, countInWs_setCurrent_ne _ _ _ _ hk]
      exact hothers k hk
  have hc2 : ∀ k, countInWs s2 k w = 0 := by
    intro k
    have : countInWs s2 k w = countInWs s1 k w := by
      simp [countInWs, hs2'.1]
    rw [this]; exact hc1 k
  have hact2 : s2.active_workspace = j := hs2'.2
  have hlen2 : s2.workspaces.length = s.workspaces.length := by
    rw [hs2'.1]; exact hlen1
  have hc3 : ∀ k, countInWs s3 k w = if k = j then 1 else 0 := by
    intro k
    by_cases hk : k = j
    · subst hk
      have := countInWs_setCurrent_self s2
        { getCurrent s2 with active_window := some w
                             elems := mapElement (getCurrent s2).elems w ⟨0, 0⟩ } w
        (by rw [hact2]; omega)
      rw [hs3, insertWindow, if_pos rfl]
      rw [hact2] at this
      rw [this]
      rw [countWindow_mapElement_self]
      have h0 : countWindow (getCurrent s2).elems w = 0 := by
        have := hc2 s2.active_workspace
        simpa [countInWs, getCurrent] using this
      simp [h0]
    · rw [if_neg hk, hs3, insertWindow,
          countInWs_setCurrent_ne _ _ _ _ (by rw [hact2]; exact hk)]
      exact hc2 k
  have hact3 : s3.active_workspace = j := by
    rw [hs3]; simp [insertWindow, setCurrent]; exact hact2
  have hlen3 : s3.workspaces.length = s.workspaces.length := by
    rw [hs3]; simp [insertWindow, setCurrent]; exact hlen2
  have hcfin : ∀ k, countInWs (moveWindowToWs s j) k w = if k = j then 1 else 0 := by
    intro k
    rw [hred]
    by_cases hk : k = j
    · subst hk
      rw [← hact3, countInWs_setCurrent_self _ _ _ (by omega)]
      have h1 : countWindow (getCurrent s3).elems w = 1 := by
        have := hc3 s3.active_workspace
        rw [hact3] at this
        simpa [countInWs, getCurrent, hact3] using this
      rw [countWindow_mapElement_self, h1]
      simp
    · rw [if_neg hk, countInWs_setCurrent_ne _ _ _ _ (by rw [hact3]; exact hk)]
      rw [hc3 k, if_neg hk]
  refine ⟨?_, ?_, ?_, ?_, ?_, ?_⟩
  · rw [moveWindowToWs, if_pos rfl]
  · rw [hred]; simp [setCurrent]; exact hact3
  · rw [hcfin j]; simp
  · rw [hcfin s.active_workspace, if_neg hne]
  · refine ⟨?_, ?_, ?_⟩
    · intro k1 k2 _ _ h1 _
      rw [hc1 k1] at h1
      omega
    · intro k1 k2 _ _ h1 _
      rw [← hs2, hc2 k1] at h1
      omega
    · intro k1 k2 _ _ h1 h2
      rw [← hs2, ← hs3, hc3 k1] at h1
      rw [← hs3, hc3 k2] at h2
      by_cases hk1 : k1 = j
      · by_cases hk2 : k2 = j
        · rw [hk1, hk2]
        · rw [if_neg hk2] at h2; omega
      · rw [if_neg hk1] at h1; omega
  · intro k1 k2 _ _ h1 h2
    rw [hcfin k1] at h1
    rw [hcfin k2] at h2
    by_cases hk1 : k1 = j
    · by_cases hk2 : k2 = j
      · rw [hk1, hk2]
      · rw [if_neg hk2] at h2; omega
    · rw [if_neg hk1] at h1; omega

/-- A two-workspace state with window 4 active on workspace 0. -/
def c6State : Workspaces :=
  ⟨[⟨[(4, ⟨10, 20⟩)], some 4, none⟩, ⟨[], none, none⟩], 0, 0⟩

/-- Witness for C6: moving window 4 from workspace 0 to workspace 1. -/
theorem move_window_to_ws_isolation_witness :
    (moveWindowToWs c6State 1).active_workspace = 1 ∧
    countInWs (moveWindowToWs c6State 1) 1 4 = 1 ∧
    countInWs (moveWindowToWs c6State 1) 0 4 = 0 := by
  have hothers : ∀ k, k ≠ c6State.active_workspace → countInWs c6State k 4 = 0 := by
    intro k hk
    cases k with
    | zero => exact absurd rfl hk
    | succ n =>
        cases n with
        | zero => rfl
        | succ m =>
            have hd : c6State.workspaces.getD (m + 2) default = default :=
              List.getD_eq_default _ _ (by simp [c6State])
            unfold countInWs
            rw [hd]
            rfl
  have h := move_window_to_ws_isolation c6State 1 4 (by decide) (by decide)
      (by decide) (by decide) (by decide) hothers
  exact ⟨h.2.1, h.2.2.1, h.2.2.2.1⟩

/-! ## Spatial focus search (`best_window` in `src/utils/workspaces.rs`)

The per-window user data (`WindowUserData`: placement mode) and the
window's configured size live in a global side table, modelled as an
association list from window id to `WinState`. -/

/-- Per-window state: the configured surface size and the placement mode
(`WindowUserData` plus the toplevel's size). -/
structure WinState where
  size : Sz
  mode : WindowMode
deriving DecidableEq, Repr

/-- `Space::element_geometry`: mapped location paired with the window's
size; `none` when the window is unmapped or unknown. -/
def elementGeometry (elems : List (Nat × Pt)) (wins : List (Nat × WinState))
    (w : Nat) : Option Rect :=
  match lookupEntry elems w, lookupEntry wins w with
  | some loc, some st => some ⟨loc, st.size⟩
  | _, _ => none

/-- The center used by `best_window` and `window_center`
(`loc + size / 2`, Rust `i32` division). -/
def centerOf (g : Rect) : Pt :=
  ⟨g.loc.x + g.size.w.tdiv 2, g.loc.y + g.size.h.tdiv 2⟩

/-- The validity test of `best_window`: the candidate's center lies strictly
on side `d` of the focused center, and the perpendicular center offset is
smaller than the **candidate's own** perpendicular extent (`geo` is the
candidate's geometry in the source). -/
def validDir (d : Direction) (dx dy : Int) (g : Rect) : Bool :=
  match d with
  | .left => decide (dx < 0) && decide (|dy| < g.size.h)
  | .right => decide (dx > 0) && decide (|dy| < g.size.h)
  | .top => decide (dy < 0) && decide (|dx| < g.size.w)
  | .down => decide (dy > 0) && decide (|dx| < g.size.w)

/-- The loop of `best_window`: iterate the space's elements, keep the best
candidate so far (replacing only on strictly smaller distance). -/
def bestLoop (d : Direction) (elems : List (Nat × Pt)) (wins : List (Nat × WinState))
    (f : Nat) (fc : Pt) :
    List (Nat × Pt) → Option (Nat × Int) → Option (Nat × Int)
  | [], best => best
  | (w, _) :: rest, best =>
      if w = f then bestLoop d elems wins f fc rest best
      else
        match elementGeometry elems wins w with
        | none => bestLoop d elems wins f fc rest best
        | some geo =>
            let c := centerOf geo
            let dx := c.x - fc.x
            let dy := c.y - fc.y
            if validDir d dx dy geo then
              let distance := |dx| + |dy|
              bestLoop d elems wins f fc rest
                (match best with
                 | none => some (w, distance)
                 | some (b, bd) =>
                     if distance < bd then some (w, distance) else some (b, bd))
            else bestLoop d elems wins f fc rest best

/-- `best_window`. -/
def best_window (d : Direction) (elems : List (Nat × Pt))
    (wins : List (Nat × WinState)) (focused : Option Nat) : Option (Nat × Int) :=
  match focused with
  | none => none
  | some f =>
      match elementGeometry elems wins f with
      | none => none
      | some fgeo => bestLoop d elems wins f (centerOf fgeo) elems none

/-- The candidate one element contributes: `none` for the focused window,
an unmappable window, or an invalid direction; otherwise the window paired
with the Manhattan distance of the centers. -/
def candOf (d : Direction) (elems : List (Nat × Pt)) (wins : List (Nat × WinState))
    (f : Nat) (fc : Pt) (p : Nat × Pt) : Option (Nat × Int) :=
  if p.1 = f then none
  else
    match elementGeometry elems wins p.1 with
    | none => none
    | some geo =>
        let c := centerOf geo
        let dx := c.x - fc.x
        let dy := c.y - fc.y
        if validDir d dx dy geo then some (p.1, |dx| + |dy|) else none

/-- All valid candidates, in element order, with their distances. -/
def validCands (d : Direction) (elems : List (Nat × Pt))
    (wins : List (Nat × WinState)) (f : Nat) (fc : Pt) : List (Nat × Int) :=
  elems.filterMap (candOf d elems wins f fc)

/-- Earliest minimum of a candidate list: minimal distance, ties broken in
favour of the earlier entry. -/
def firstMin : List (Nat × Int) → Option (Nat × Int)
  | [] => none
  | p :: rest =>
      match firstMin rest with
      | none => some p
      | some q => if q.2 < p.2 then some q else some p

/-- Modelled from the spec's words for C4 (the spec's validity condition,
to be compared with the source's `validDir`): a candidate is valid for a
direction iff its center lies strictly on that side of the focused center
AND its perpendicular-axis overlap with the focused window's extent is
non-zero. -/
def specValidCandidate (d : Direction) (fgeo cgeo : Rect) : Bool :=
  let fc := centerOf fgeo
  let cc := centerOf cgeo
  let overlapV :=
    min (fgeo.loc.y + fgeo.size.h) (cgeo.loc.y + cgeo.size.h) -
      max fgeo.loc.y cgeo.loc.y
  let overlapH :=
    min (fgeo.loc.x + fgeo.size.w) (cgeo.loc.x + cgeo.size.w) -
      max fgeo.loc.x cgeo.loc.x
  match d with
  | .left => decide (cc.x < fc.x) && decide (0 < overlapV)
  | .right => decide (fc.x < cc.x) && decide (0 < overlapV)
  | .top => decide (cc.y < fc.y) && decide (0 < overlapH)
  | .down => decide (fc.y < cc.y) && decide (0 < overlapH)

/-- C4 counterexample: focused window 0 spans `y ∈ [0, 100)`; window 1 is
strictly to its right with `y`-overlap 10 > 0, so the spec calls it a valid
rightward candidate — yet `best_window` rejects it (the code compares the
center offset 45 against the candidate's own height 10) and returns no
candidate at all. -/
theorem best_window_overlap_counterexample :
    specValidCandidate .right ⟨⟨0, 0⟩, ⟨10, 100⟩⟩ ⟨⟨20, 0⟩, ⟨10, 10⟩⟩ = true ∧
    elementGeometry [(0, ⟨0, 0⟩), (1, ⟨20, 0⟩)]
      [(0, ⟨⟨10, 100⟩, .tiled⟩), (1, ⟨⟨10, 10⟩, .tiled⟩)] 1 =
        some ⟨⟨20, 0⟩, ⟨10, 10⟩⟩ ∧
    best_window .right [(0, ⟨0, 0⟩), (1, ⟨20, 0⟩)]
      [(0, ⟨⟨10, 100⟩, .tiled⟩), (1, ⟨⟨10, 10⟩, .tiled⟩)] (some 0) = none := by
  refine ⟨by decide, by decide, by decide⟩

/-- Folding one candidate into the running best: keep the accumulator
unless the new distance is strictly smaller. -/
def combineAcc (acc r : Option (Nat × Int)) : Option (Nat × Int) :=
  match acc, r with
  | none, r => r
  | some a, none => some a
  | some a, some q => if q.2 < a.2 then some q else some a

theorem firstMin_cons (p : Nat × Int) (l : List (Nat × Int)) :
    firstMin (p :: l) = combineAcc (some p) (firstMin l) := by
  cases h : firstMin l <;> simp [firstMin, combineAcc, h]

theorem combineAcc_assoc (a b c : Option (Nat × Int)) :
    combineAcc a (combineAcc b c) = combineAcc (combineAcc a b) c := by
  rcases a with _ | a <;> rcases b with _ | b <;> rcases c with _ | c <;>
    simp only [combineAcc] <;> split_ifs <;>
    simp only [combineAcc] <;> split_ifs <;> first | rfl | omega

theorem bestLoop_eq_firstMin (d : Direction) (elems : List (Nat × Pt))
    (wins : List (Nat × WinState)) (f : Nat) (fc : Pt) (iter : List (Nat × Pt))
    (acc : Option (Nat × Int)) :
    bestLoop d elems wins f fc iter acc =
      combineAcc acc (firstMin (iter.filterMap (candOf d elems wins f fc))) := by
  induction iter generalizing acc with
  | nil => cases acc <;> rfl
  | cons p rest ih =>
      obtain ⟨w, pt⟩ := p
      by_cases hw : w = f
      · have hcand : candOf d elems wins f fc (w, pt) = none := by
          simp [candOf, hw]
        simp only [bestLoop, if_pos hw, List.filterMap_cons, hcand]
        exact ih acc
      · cases hg : elementGeometry elems wins w with
        | none =>
            have hcand : candOf d elems wins f fc (w, pt) = none := by
              simp [candOf, hw, hg]
            simp only [bestLoop, if_neg hw, hg, List.filterMap_cons, hcand]
            exact ih acc
        | some geo =>
            by_cases hv : validDir d ((centerOf geo).x - fc.x)
                ((centerOf geo).y - fc.y) geo = true
            · have hcand : candOf d elems wins f fc (w, pt) =
                  some (w, |(centerOf geo).x - fc.x| + |(centerOf geo).y - fc.y|) := by
                simp only [candOf, if_neg hw, hg]
                simp [hv]
              simp only [bestLoop, if_neg hw, hg, List.filterMap_cons, hcand,
                if_pos hv]
              rw [ih]
              rw [firstMin_cons, combineAcc_assoc]
              cases acc with
              | none => rfl
              | some a => obtain ⟨b, bd⟩ := a; rfl
            · have hcand : candOf d elems wins f fc (w, pt) = none := by
                simp only [candOf, if_neg hw, hg]
                simp [hv]
              simp only [bestLoop, if_neg hw, hg, List.filterMap_cons, hcand,
                if_neg hv]
              exact ih acc

theorem firstMin_eq_none (l : List (Nat × Int)) :
    firstMin l = none ↔ l = [] := by
  cases l with
  | nil => simp [firstMin]
  | cons p rest =>
      rw [firstMin_cons]
      cases firstMin rest with
      | none => simp [combineAcc]
      | some q => simp only [combineAcc]; split_ifs <;> simp

theorem firstMin_le (l : List (Nat × Int)) (q : Nat × Int)
    (h : firstMin l = some q) : ∀ p ∈ l, q.2 ≤ p.2 := by
  induction l generalizing q with
  | nil => simp [firstMin] at h
  | cons p rest ih =>
      rw [firstMin_cons] at h
      intro x hx
      rcases List.mem_cons.mp hx with hx | hx
      · subst hx
        cases hr : firstMin rest with
        | none => rw [hr] at h; cases h; rfl
        | some q' =>
            rw [hr] at h
            simp only [combineAcc] at h
            by_cases hlt : q'.2 < x.2
            · rw [if_pos hlt] at h; cases h; omega
            · rw [if_neg hlt] at h; cases h; rfl
      · cases hr : firstMin rest with
        | none =>
            rw [(firstMin_eq_none rest).mp hr] at hx
            simp at hx
        | some q' =>
            rw [hr] at h
            simp only [combineAcc] at h
            have hq' := ih q' hr x hx
            by_cases hlt : q'.2 < p.2
            · rw [if_pos hlt] at h; cases h; exact hq'
            · rw [if_neg hlt] at h; cases h; omega

theorem firstMin_earliest (l : List (Nat × Int)) (q : Nat × Int)
    (h : firstMin l = some q) :
    ∃ pre post, l = pre ++ q :: post ∧ ∀ p ∈ pre, q.2 < p.2 := by
  induction l generalizing q with
  | nil => simp [firstMin] at h
  | cons p rest ih =>
      rw [firstMin_cons] at h
      cases hr : firstMin rest with
      | none =>
          rw [hr] at h
          simp only [combineAcc] at h
          cases h
          exact ⟨[], rest, rfl, by simp⟩
      | some q' =>
          rw [hr] at h
          simp only [combineAcc] at h
          by_cases hlt : q'.2 < p.2
          · rw [if_pos hlt] at h; cases h
            obtain ⟨pre, post, heq, hpre⟩ := ih _ hr
            refine ⟨p :: pre, post, by rw [heq]; rfl, ?_⟩
            intro x hx
            rcases List.mem_cons.mp hx with hx | hx
            · subst hx; exact hlt
            · exact hpre x hx
          · rw [if_neg hlt] at h; cases h
            exact ⟨[], rest, rfl, by simp⟩

theorem firstMin_mem (l : List (Nat × Int)) (q : Nat × Int)
    (h : firstMin l = some q) : q ∈ l := by
  obtain ⟨pre, post, heq, -⟩ := firstMin_earliest l q h
  rw [heq]
  simp

/-- C4 (amended): the best-candidate search shared by `change_focus` and
`move_window` selects, among the windows other than the focused one whose
center lies strictly on side `d` of the focused center **and whose
perpendicular center offset is smaller than the candidate's own
perpendicular extent** (not its overlap with the focused window, which is
what the spec says), the one with minimal Manhattan distance between
centers, ties broken in favour of the earlier window in element order;
with no valid candidate nothing is returned. -/
theorem best_window_first_min (d : Direction) (elems : List (Nat × Pt))
    (wins : List (Nat × WinState)) (f : Nat) (fgeo : Rect)
    (hf : elementGeometry elems wins f = some fgeo) :
    best_window d elems wins (some f) =
      firstMin (validCands d elems wins f (centerOf fgeo)) ∧
    (validCands d elems wins f (centerOf fgeo) = [] →
      best_window d elems wins (some f) = none) ∧
    (∀ c dist, best_window d elems wins (some f) = some (c, dist) →
      (c, dist) ∈ validCands d elems wins f (centerOf fgeo) ∧
      (∀ p ∈ validCands d elems wins f (centerOf fgeo), dist ≤ p.2) ∧
      (∃ pre post, validCands d elems wins f (centerOf fgeo) =
          pre ++ (c, dist) :: post ∧ ∀ p ∈ pre, dist < p.2)) := by
  have hmain : best_window d elems wins (some f) =
      firstMin (validCands d elems wins f (centerOf fgeo)) := by
    simp only [best_window, hf]
    rw [bestLoop_eq_firstMin]
    rfl
  refine ⟨hmain, ?_, ?_⟩
  · intro hnil
    rw [hmain, hnil]
    rfl
  · intro c dist hsome
    rw [hmain] at hsome
    refine ⟨firstMin_mem _ _ hsome, firstMin_le _ _ hsome, ?_⟩
    obtain ⟨pre, post, heq, hpre⟩ := firstMin_earliest _ _ hsome
    exact ⟨pre, post, heq, hpre⟩

/-- Witness for C4 on a three-window workspace: from focused window 0
(left half), windows 1 and 2 stack on the right; window 1 is the nearer
valid rightward candidate and is selected. -/
theorem best_window_first_min_witness :
    best_window .right
      [(0, ⟨0, 0⟩), (1, ⟨50, 0⟩), (2, ⟨50, 30⟩)]
      [(0, ⟨⟨50, 60⟩, .tiled⟩), (1, ⟨⟨50, 30⟩, .tiled⟩), (2, ⟨⟨50, 30⟩, .tiled⟩)]
      (some 0) =
      firstMin (validCands .right
        [(0, ⟨0, 0⟩), (1, ⟨50, 0⟩), (2, ⟨50, 30⟩)]
        [(0, ⟨⟨50, 60⟩, .tiled⟩), (1, ⟨⟨50, 30⟩, .tiled⟩), (2, ⟨⟨50, 30⟩, .tiled⟩)]
        0 (centerOf ⟨⟨0, 0⟩, ⟨50, 60⟩⟩)) ∧
    best_window .right
      [(0, ⟨0, 0⟩), (1, ⟨50, 0⟩), (2, ⟨50, 30⟩)]
      [(0, ⟨⟨50, 60⟩, .tiled⟩), (1, ⟨⟨50, 30⟩, .tiled⟩), (2, ⟨⟨50, 30⟩, .tiled⟩)]
      (some 0) = some (1, 65) := by
  constructor
  · exact (best_window_first_min .right
      [(0, ⟨0, 0⟩), (1, ⟨50, 0⟩), (2, ⟨50, 30⟩)]
      [(0, ⟨⟨50, 60⟩, .tiled⟩), (1, ⟨⟨50, 30⟩, .tiled⟩), (2, ⟨⟨50, 30⟩, .tiled⟩)]
      0 ⟨⟨0, 0⟩, ⟨50, 60⟩⟩ (by decide)).1
  · decide

/-! ## Fullscreen handlers (`src/handlers/xdg.rs`) and `State::refresh_layout`
(`src/state.rs`)

The handlers operate on the current workspace; the model carries that
workspace (`ws`), the global per-window table (`wins`: user-data mode plus
the configured surface size), the border offset
(`config.border.gap + config.border.thickness`) and the pointer location.
A single connected output is assumed: the handlers `unwrap` it, and its
geometry and the layer map's non-exclusive zone are fields of the
workspace.  A protocol `configure` of a pending size is modelled as
updating the window's size in the table. -/

/-- Current workspace: element list, active window, output geometry and the
non-exclusive zone (relative to the output). -/
structure WorkspaceX where
  elems : List (Nat × Pt)
  active_window : Option Nat
  outputGeo : Rect
  zone : Rect
deriving DecidableEq, Repr

/-- Compositor state slice used by the fullscreen claims. -/
structure XState where
  ws : WorkspaceX
  wins : List (Nat × WinState)
  offset : Int
  pointer : Pt
deriving DecidableEq, Repr

/-- Overwrite every entry of key `w` with the value `v` (`borrow_mut`
assignment through the user-data handle; keys are unique in practice). -/
def setEntry (l : List (Nat × β)) (w : Nat) (v : β) : List (Nat × β) :=
  l.map (fun p => if p.1 == w then (w, v) else p)

/-- `with_pending_state(|st| st.size = Some(sz))` for window `w`. -/
def updateSize (wins : List (Nat × WinState)) (w : Nat) (sz : Sz) :
    List (Nat × WinState) :=
  wins.map (fun p => if p.1 == w then (w, ⟨sz, p.2.mode⟩) else p)

/-- `user_data ... .mode = m` for window `w`. -/
def updateMode (wins : List (Nat × WinState)) (w : Nat) (m : WindowMode) :
    List (Nat × WinState) :=
  wins.map (fun p => if p.1 == w then (w, ⟨p.2.size, m⟩) else p)

/-- Whether a mode is the `Fullscreen` variant. -/
def isFullscreenMode : WindowMode → Bool
  | .fullscreen _ => true
  | _ => false

/-- `is_fullscreen`: first window of the element list in Fullscreen mode.
Faithfully to the source, a window without a user-data entry aborts the
whole scan (the `?` inside the loop). -/
def is_fullscreen (elems : List (Nat × Pt)) (wins : List (Nat × WinState)) :
    Option Nat :=
  match elems with
  | [] => none
  | (w, _) :: rest =>
      match lookupEntry wins w with
      | none => none
      | some st =>
          match st.mode with
          | .fullscreen _ => some w
          | _ => is_fullscreen rest wins

/-- How many windows of the table are in Fullscreen mode. -/
def fullscreenCount (wins : List (Nat × WinState)) : Nat :=
  (wins.filter (fun p => isFullscreenMode p.2.mode)).length

/-- `Rectangle::contains` (half-open on the far edges); the `f64`
comparison of the source is modelled at integer pointer positions. -/
def rectContains (g : Rect) (p : Pt) : Bool :=
  decide (g.loc.x ≤ p.x) && decide (p.x < g.loc.x + g.size.w) &&
    decide (g.loc.y ≤ p.y) && decide (p.y < g.loc.y + g.size.h)

/-- The sort key of `refresh_layout`'s tiling order: the window's current
geometry location (`unwrap_or_default` gives the zero rectangle). -/
def tileKey (elems : List (Nat × Pt)) (wins : List (Nat × WinState))
    (p : Nat × Pt) : Pt :=
  match elementGeometry elems wins p.1 with
  | some g => g.loc
  | none => ⟨0, 0⟩

/-- Strict key order: by `y`, then by `x`. -/
def keyLt (a b : Pt) : Bool :=
  decide (a.y < b.y) || (decide (a.y = b.y) && decide (a.x < b.x))

/-- Insert before the first element whose key is not strictly smaller. -/
def insertByKey (key : α → Pt) (a : α) : List α → List α
  | [] => [a]
  | b :: l =>
      if keyLt (key b) (key a) then b :: insertByKey key a l else a :: b :: l

/-- Stable sort by key (insertion sort, processing from the right and
inserting before equal keys), extensionally equal to Rust's stable
`sort_by` with the `y`-then-`x` comparator. -/
def sortByKey (key : α → Pt) : List α → List α
  | [] => []
  | a :: l => insertByKey key a (sortByKey key l)

/-- Accumulator of `refresh_layout`'s two placement loops. -/
structure LayoutAcc where
  elems : List (Nat × Pt)
  wins : List (Nat × WinState)
  active : Option Nat
deriving DecidableEq, Repr

/-- One iteration of the tiled-placement loop of `refresh_layout`: skip the
fullscreen window, shrink the slot by the border offset, configure the new
size, re-map the window, and remember it as `active` when its (pre-offset)
slot contains the pointer. -/
def placeStep (pointer : Pt) (offset : Int) (fullscreen : Option Nat)
    (acc : LayoutAcc) (elem : (Nat × Pt) × Rect) : LayoutAcc :=
  let w := elem.1.1
  if fullscreen = some w then acc
  else
    let geometry : Rect :=
      ⟨⟨elem.2.loc.x + offset, elem.2.loc.y + offset⟩,
       ⟨elem.2.size.w - offset * 2, elem.2.size.h - offset * 2⟩⟩
    { elems := mapElement acc.elems w geometry.loc
      wins := updateSize acc.wins w geometry.size
      active := if rectContains elem.2 pointer then some w else acc.active }

/-- One iteration of the floating loop of `refresh_layout`: re-map the
window at its current location and remember it as `active` when its
geometry contains the pointer. -/
def floatStep (pointer : Pt) (acc : LayoutAcc) (w : Nat) : LayoutAcc :=
  match elementGeometry acc.elems acc.wins w with
  | some geometry =>
      { acc with elems := mapElement acc.elems w geometry.loc
                 active := if rectContains geometry pointer then some w
                           else acc.active }
  | none => acc

/-- `State::refresh_layout` (`space.refresh()`, the dead-window cleanup, is
a no-op here; keyboard-focus side effects are not modelled). -/
def refreshLayout (s : XState) : XState :=
  let fullscreen := is_fullscreen s.ws.elems s.wins
  let area : Rect :=
    ⟨⟨s.ws.outputGeo.loc.x + s.ws.zone.loc.x,
      s.ws.outputGeo.loc.y + s.ws.zone.loc.y⟩, s.ws.zone.size⟩
  let tiled := sortByKey (tileKey s.ws.elems s.wins)
    (s.ws.elems.filter (fun p =>
      match lookupEntry s.wins p.1 with
      | some st => st.mode == WindowMode.tiled
      | none => false))
  if tiled.length = 0 then s
  else
    let placed := placement tiled area
    let r1 := placed.foldl (placeStep s.pointer s.offset fullscreen)
      ⟨s.ws.elems, s.wins, none⟩
    let floating := (r1.elems.filter (fun p =>
      match lookupEntry r1.wins p.1 with
      | some st => st.mode == WindowMode.floating
      | none => false)).map Prod.fst
    let r2 := floating.foldl (floatStep s.pointer) r1
    { s with
      ws := { s.ws with
              elems := r2.elems
              active_window := match s.ws.active_window with
                               | none => r2.active
                               | some a => some a }
      wins := r2.wins }

/-- `XdgShellHandler::fullscreen_request` for a window of the current
workspace: record the current geometry in the mode tag, map at the origin,
and configure the output size.  `none` models the source's `unwrap`
panics (window not found / no user data). -/
def fullscreen_request (s : XState) (w : Nat) : Option XState :=
  match lookupEntry s.ws.elems w, lookupEntry s.wins w with
  | some loc, some st =>
      let R : Rect := ⟨loc, st.size⟩
      let wins1 := setEntry s.wins w (⟨st.size, .fullscreen R⟩ : WinState)
      let elems1 := mapElement s.ws.elems w ⟨0, 0⟩
      let wins2 := updateSize wins1 w s.ws.outputGeo.size
      some { s with ws := { s.ws with elems := elems1 }, wins := wins2 }
  | _, _ => none

/-- `XdgShellHandler::unfullscreen_request`: if the window's mode is
`Fullscreen(prev)`, configure `prev.size`, re-map at `prev.loc`, force the
mode to `Tiled` and recompute the layout; otherwise do nothing. -/
def unfullscreen_request (s : XState) (w : Nat) : Option XState :=
  match lookupEntry s.ws.elems w, lookupEntry s.wins w with
  | some _, some st =>
      match st.mode with
      | .fullscreen prev =>
          let wins1 := updateSize s.wins w prev.size
          let elems1 := mapElement s.ws.elems w prev.loc
          let wins2 := updateMode wins1 w .tiled
          some (refreshLayout
            { s with ws := { s.ws with elems := elems1 }, wins := wins2 })
      | _ => some s
  | _, _ => none

/-- `Action::execute` for `Action::Fullscreen`: with no active window do
nothing; un-fullscreen the workspace's fullscreen window if one exists,
else fullscreen the active window. -/
def actionFullscreen (s : XState) : Option XState :=
  match s.ws.active_window with
  | none => some s
  | some active =>
      match is_fullscreen s.ws.elems s.wins with
      | some fw => unfullscreen_request s fw
      | none => fullscreen_request s active

/-- Two windows on one workspace; window 0 is already fullscreen (restore
rectangle: the left half), window 1 is tiled and active. -/
def c3State : XState :=
  { ws := { elems := [(0, ⟨0, 0⟩), (1, ⟨50, 0⟩)]
            active_window := some 1
            outputGeo := ⟨⟨0, 0⟩, ⟨100, 60⟩⟩
            zone := ⟨⟨0, 0⟩, ⟨100, 60⟩⟩ }
    wins := [(0, ⟨⟨100, 60⟩, .fullscreen ⟨⟨0, 0⟩, ⟨50, 60⟩⟩⟩),
             (1, ⟨⟨50, 60⟩, .tiled⟩)]
    offset := 4
    pointer := ⟨200, 200⟩ }

/-- C3 counterexample: while window 0 is still in Fullscreen mode, handling
a client fullscreen request for window 1 performs no resolution and leaves
TWO windows of the workspace in Fullscreen mode. -/
theorem fullscreen_request_two_fullscreen_counterexample :
    (fullscreen_request c3State 1).map (fun s => fullscreenCount s.wins) =
      some 2 := by decide

/-- One floating window at `((100,100),(300,200))` on a `2560×1440`
output, pointer away from every window. -/
def c2FloatState : XState :=
  { ws := { elems := [(0, ⟨100, 100⟩)]
            active_window := some 0
            outputGeo := ⟨⟨0, 0⟩, ⟨2560, 1440⟩⟩
            zone := ⟨⟨0, 0⟩, ⟨2560, 1440⟩⟩ }
    wins := [(0, ⟨⟨300, 200⟩, .floating⟩)]
    offset := 4
    pointer := ⟨5000, 5000⟩ }

/-- C2 counterexample: a FLOATING window at rectangle
`((100,100),(300,200))` is fullscreened and immediately un-fullscreened,
yet ends at `((4,4),(2552,1432))` — the un-fullscreen handler forces the
mode to Tiled and the relayout it triggers re-tiles the window, so the
pre-fullscreen rectangle is not restored. -/
theorem fullscreen_roundtrip_floating_counterexample :
    ((fullscreen_request c2FloatState 0).bind
        (fun s1 => unfullscreen_request s1 0)).map
      (fun s2 => elementGeometry s2.ws.elems s2.wins 0) =
      some (some ⟨⟨4, 4⟩, ⟨2552, 1432⟩⟩) ∧
    (⟨⟨4, 4⟩, ⟨2552, 1432⟩⟩ : Rect) ≠ ⟨⟨100, 100⟩, ⟨300, 200⟩⟩ :=
  ⟨by decide, by decide⟩

theorem map_eq_self_of_mem (l : List α) (f : α → α) (h : ∀ p ∈ l, f p = p) :
    l.map f = l := by
  induction l with
  | nil => rfl
  | cons p rest ih =>
      rw [List.map_cons, h p (by simp), ih (fun q hq => h q (by simp [hq]))]

theorem lookup_mem_nodup (l : List (Nat × β)) (p : Nat × β)
    (hp : p ∈ l) (hnd : (l.map Prod.fst).Nodup) :
    lookupEntry l p.1 = some p.2 := by
  induction l with
  | nil => simp at hp
  | cons q rest ih =>
      rcases List.mem_cons.mp hp with hp | hp
      · subst hp
        simp [lookupEntry, List.find?_cons_of_pos]
      · have hnd' : q.1 ∉ rest.map Prod.fst ∧ (rest.map Prod.fst).Nodup := by
          rw [List.map_cons, List.nodup_cons] at hnd
          exact hnd
        have hq : ¬ q.1 = p.1 := by
          intro he
          exact hnd'.1 (he ▸ List.mem_map_of_mem Prod.fst hp)
        have : lookupEntry rest p.1 = some p.2 := ih hp hnd'.2
        simpa [lookupEntry, List.find?_cons_of_neg, hq] using this

theorem lookup_any (l : List (Nat × β)) (w : Nat) (v : β)
    (h : lookupEntry l w = some v) : l.any (fun p => p.1 == w) = true := by
  induction l with
  | nil => simp [lookupEntry] at h
  | cons q rest ih =>
      by_cases hq : q.1 = w
      · simp [hq]
      · simp only [List.any_cons]
        have : lookupEntry rest w = some v := by
          simpa [lookupEntry, List.find?_cons_of_neg, hq] using h
        simp [hq, ih this]

theorem lookup_map_const (l : List (Nat × β)) (w : Nat) (f : Nat × β → Nat × β)
    (v : β) (hfix : ∀ p, ¬ p.1 = w → f p = p)
    (hset : ∀ p, p.1 = w → f p = (w, v)) :
    lookupEntry (l.map f) w = (lookupEntry l w).map (fun _ => v) := by
  induction l with
  | nil => rfl
  | cons q rest ih =>
      by_cases hq : q.1 = w
      · rw [List.map_cons, hset q hq]
        simp [lookupEntry, List.find?_cons_of_pos, hq]
      · rw [List.map_cons, hfix q hq]
        simpa [lookupEntry, List.find?_cons_of_neg, hq] using ih

theorem mapElement_eq_setEntry (l : List (Nat × Pt)) (w : Nat) (loc : Pt)
    (h : l.any (fun p => p.1 == w) = true) :
    mapElement l w loc = setEntry l w loc := by
  simp [mapElement, setEntry, h]

theorem fullscreenCount_zero (l : List (Nat × WinState))
    (h : ∀ q ∈ l, isFullscreenMode q.2.mode = false) :
    fullscreenCount l = 0 := by
  induction l with
  | nil => rfl
  | cons q rest ih =>
      simp only [fullscreenCount, List.filter_cons, h q (by simp)]
      exact ih fun p hp => h p (by simp [hp])

/-- C2 (amended): for a TILED window `w` whose geometry `R` is the one the
layout assigns (the steady state between operations, expressed as
`refresh_layout` being a fixpoint of the state), fullscreen followed
immediately by un-fullscreen returns the state unchanged: `w` is restored
to exactly `R` (location and size) and — provided no other window was
fullscreen — no window of the workspace is in Fullscreen mode.  For a
FLOATING window the claim fails: un-fullscreen forces the mode to Tiled
and the triggered relayout re-tiles it (see the counterexample). -/
theorem fullscreen_roundtrip_tiled (s : XState) (w : Nat) (R : Rect)
    (hloc : lookupEntry s.ws.elems w = some R.loc)
    (hwin : lookupEntry s.wins w = some ⟨R.size, .tiled⟩)
    (hnodE : (s.ws.elems.map Prod.fst).Nodup)
    (hnodW : (s.wins.map Prod.fst).Nodup)
    (hfix : refreshLayout s = s) :
    elementGeometry s.ws.elems s.wins w = some R ∧
    ∃ s1, fullscreen_request s w = some s1 ∧
      unfullscreen_request s1 w = some s ∧
      ((∀ q ∈ s.wins, q.1 ≠ w → isFullscreenMode q.2.mode = false) →
        fullscreenCount s.wins = 0) := by
  obtain ⟨Rloc, Rsize⟩ := R
  have hgeo : elementGeometry s.ws.elems s.wins w = some ⟨Rloc, Rsize⟩ := by
    simp [elementGeometry, hloc, hwin]
  have hany : s.ws.elems.any (fun p => p.1 == w) = true := lookup_any _ _ _ hloc
  have h1 : fullscreen_request s w =
      some { s with
             ws := { s.ws with elems := mapElement s.ws.elems w ⟨0, 0⟩ }
             wins := updateSize
               (setEntry s.wins w (⟨Rsize, .fullscreen ⟨Rloc, Rsize⟩⟩ : WinState))
               w s.ws.outputGeo.size } := by
    simp [fullscreen_request, hloc, hwin]
  have hlookE1 : lookupEntry (mapElement s.ws.elems w ⟨0, 0⟩) w =
      some (⟨0, 0⟩ : Pt) := by
    rw [mapElement_eq_setEntry _ _ _ hany, setEntry,
        lookup_map_const _ _ _ (⟨0, 0⟩ : Pt)
          (fun p hp => by simp [hp]) (fun p hp => by simp [hp]),
        hloc]
    rfl
  have hlookW1 : lookupEntry
      (updateSize
        (setEntry s.wins w (⟨Rsize, .fullscreen ⟨Rloc, Rsize⟩⟩ : WinState))
        w s.ws.outputGeo.size) w =
      some (⟨s.ws.outputGeo.size, .fullscreen ⟨Rloc, Rsize⟩⟩ : WinState) := by
    rw [updateSize, setEntry, List.map_map,
        lookup_map_const _ _ _
          (⟨s.ws.outputGeo.size, .fullscreen ⟨Rloc, Rsize⟩⟩ : WinState)
          (fun p hp => by simp [hp]) (fun p hp => by simp [hp]),
        hwin]
    rfl
  have helems : mapElement (mapElement s.ws.elems w ⟨0, 0⟩) w Rloc =
      s.ws.elems := by
    have hany1 : (mapElement s.ws.elems w ⟨0, 0⟩).any (fun p => p.1 == w) =
        true := lookup_any _ _ _ hlookE1
    rw [mapElement_eq_setEntry _ _ _ hany1,
        mapElement_eq_setEntry _ _ _ hany, setEntry, setEntry, List.map_map]
    apply map_eq_self_of_mem
    intro p hp
    obtain ⟨p1, p2⟩ := p
    by_cases hpw : p1 = w
    · have hl := lookup_mem_nodup s.ws.elems (p1, p2) hp hnodE
      simp only at hl
      rw [hpw, hloc] at hl
      have hp2 : p2 = Rloc := by
        injection hl with hl'
        exact hl'.symm
      subst hpw
      subst hp2
      simp
    · simp [hpw]
  have hwins : updateMode
      (updateSize
        (updateSize
          (setEntry s.wins w (⟨Rsize, .fullscreen ⟨Rloc, Rsize⟩⟩ : WinState))
          w s.ws.outputGeo.size)
        w Rsize)
      w .tiled = s.wins := by
    rw [updateMode, updateSize, updateSize, setEntry,
        List.map_map, List.map_map, List.map_map]
    apply map_eq_self_of_mem
    intro p hp
    obtain ⟨p1, p2⟩ := p
    by_cases hpw : p1 = w
    · have hl := lookup_mem_nodup s.wins (p1, p2) hp hnodW
      simp only at hl
      rw [hpw, hwin] at hl
      have hp2 : p2 = ⟨Rsize, .tiled⟩ := by
        injection hl with hl'
        exact hl'.symm
      subst hpw
      subst hp2
      simp
    · simp [hpw]
  refine ⟨hgeo, ⟨_, h1, ?_, ?_⟩⟩
  · have h2 : unfullscreen_request
        ({ s with
           ws := { s.ws with elems := mapElement s.ws.elems w ⟨0, 0⟩ }
           wins := updateSize
             (setEntry s.wins w (⟨Rsize, .fullscreen ⟨Rloc, Rsize⟩⟩ : WinState))
             w s.ws.outputGeo.size }) w =
        some (refreshLayout
          { s with
            ws := { s.ws with
                    elems := mapElement (mapElement s.ws.elems w ⟨0, 0⟩) w Rloc }
            wins := updateMode
              (updateSize
                (updateSize
                  (setEntry s.wins w
                    (⟨Rsize, .fullscreen ⟨Rloc, Rsize⟩⟩ : WinState))
                  w s.ws.outputGeo.size)
                w Rsize)
              w .tiled }) := by
      simp [unfullscreen_request, hlookE1, hlookW1]
    rw [h2, helems, hwins]
    show some (refreshLayout s) = some s
    rw [hfix]
  · intro hno
    apply fullscreenCount_zero
    intro q hq
    by_cases hqw : q.1 = w
    · have hl := lookup_mem_nodup s.wins q hq hnodW
      rw [hqw, hwin] at hl
      have : q.2 = ⟨Rsize, .tiled⟩ := by
        injection hl with hl'
        exact hl'.symm
      rw [this]
      rfl
    · exact hno q hq hqw

/-- A one-window steady state: window 0 tiled at the rectangle the layout
assigns on a `2560×1440` output with offset 4. -/
def c2TiledState : XState :=
  { ws := { elems := [(0, ⟨4, 4⟩)]
            active_window := some 0
            outputGeo := ⟨⟨0, 0⟩, ⟨2560, 1440⟩⟩
            zone := ⟨⟨0, 0⟩, ⟨2560, 1440⟩⟩ }
    wins := [(0, ⟨⟨2552, 1432⟩, .tiled⟩)]
    offset := 4
    pointer := ⟨5000, 5000⟩ }

/-- Witness for the amended C2 on `c2TiledState`. -/
theorem fullscreen_roundtrip_tiled_witness :
    elementGeometry c2TiledState.ws.elems c2TiledState.wins 0 =
      some ⟨⟨4, 4⟩, ⟨2552, 1432⟩⟩ ∧
    ∃ s1, fullscreen_request c2TiledState 0 = some s1 ∧
      unfullscreen_request s1 0 = some c2TiledState := by
  obtain ⟨hg, s1, h1, h2, -⟩ := fullscreen_roundtrip_tiled c2TiledState 0
      ⟨⟨4, 4⟩, ⟨2552, 1432⟩⟩ (by decide) (by decide) (by decide) (by decide)
      (by decide)
  exact ⟨hg, s1, h1, h2⟩

theorem fullscreenCount_map_le (l : List (Nat × WinState))
    (f : Nat × WinState → Nat × WinState)
    (h : ∀ p, isFullscreenMode (f p).2.mode = true →
      isFullscreenMode p.2.mode = true) :
    fullscreenCount (l.map f) ≤ fullscreenCount l := by
  induction l with
  | nil => exact Nat.le_refl 0
  | cons p rest ih =>
      simp only [List.map_cons, fullscreenCount, List.filter_cons]
      cases hfp : isFullscreenMode (f p).2.mode with
      | true =>
          rw [h p hfp]
          simp only [List.length_cons]
          exact Nat.succ_le_succ ih
      | false =>
          cases hp : isFullscreenMode p.2.mode with
          | true =>
              simp only [List.length_cons]
              exact Nat.le_succ_of_le ih
          | false => exact ih

theorem fullscreenCount_map_key (l : List (Nat × WinState)) (w : Nat)
    (f : Nat × WinState → Nat × WinState)
    (hfix : ∀ p, ¬ p.1 = w → f p = p) :
    fullscreenCount (l.map f) ≤
      fullscreenCount l + (l.filter (fun p => p.1 == w)).length := by
  induction l with
  | nil => exact Nat.le_refl 0
  | cons p rest ih =>
      by_cases hp : p.1 = w
      · have hb : (p.1 == w) = true := by simp [hp]
        have h1 : fullscreenCount ((p :: rest).map f) ≤
            fullscreenCount (rest.map f) + 1 := by
          simp only [List.map_cons, fullscreenCount, List.filter_cons]
          split <;> simp
        have h2 : fullscreenCount rest ≤ fullscreenCount (p :: rest) := by
          simp only [fullscreenCount, List.filter_cons]
          split <;> simp
        have h3 : ((p :: rest).filter (fun q => q.1 == w)).length =
            (rest.filter (fun q => q.1 == w)).length + 1 := by
          simp [List.filter_cons, hb]
        omega
      · have hb : (p.1 == w) = false := by simp [hp]
        have h1 : fullscreenCount ((p :: rest).map f) =
            fullscreenCount (rest.map f) +
              (if isFullscreenMode p.2.mode = true then 1 else 0) := by
          simp only [List.map_cons, fullscreenCount, List.filter_cons,
            hfix p hp]
          split <;> simp
        have h2 : fullscreenCount (p :: rest) =
            fullscreenCount rest +
              (if isFullscreenMode p.2.mode = true then 1 else 0) := by
          simp only [fullscreenCount, List.filter_cons]
          split <;> simp
        have h3 : ((p :: rest).filter (fun q => q.1 == w)).length =
            (rest.filter (fun q => q.1 == w)).length := by
          simp [List.filter_cons, hb]
        rw [h1, h2, h3]
        split <;> omega

theorem keyCount_le_one (l : List (Nat × β)) (w : Nat)
    (hnd : (l.map Prod.fst).Nodup) :
    (l.filter (fun p => p.1 == w)).length ≤ 1 := by
  induction l with
  | nil => exact Nat.le_succ 0
  | cons q rest ih =>
      have hnd' : q.1 ∉ rest.map Prod.fst ∧ (rest.map Prod.fst).Nodup := by
        rw [List.map_cons, List.nodup_cons] at hnd
        exact hnd
      simp only [List.filter_cons]
      by_cases hq : q.1 = w
      · have hrest : rest.filter (fun p => p.1 == w) = [] := by
          rw [List.filter_eq_nil_iff]
          intro p hp
          simp only [beq_iff_eq]
          intro he
          exact hnd'.1 (by
            rw [hq, ← he]
            exact List.mem_map_of_mem Prod.fst hp)
        simp [hq, hrest]
      · have hb : (q.1 == w) = false := by simp [hq]
        rw [hb]
        simp only [Bool.false_eq_true, if_false]
        exact ih hnd'.2

theorem fullscreenCount_map_mode (l : List (Nat × WinState))
    (f : Nat × WinState → Nat × WinState)
    (h : ∀ p, (f p).2.mode = p.2.mode) :
    fullscreenCount (l.map f) = fullscreenCount l := by
  induction l with
  | nil => rfl
  | cons p rest ih =>
      simp only [fullscreenCount] at ih
      simp only [List.map_cons, fullscreenCount, List.filter_cons, h p]
      split <;> simp [ih]

theorem fullscreenCount_updateSize (l : List (Nat × WinState)) (w : Nat)
    (sz : Sz) : fullscreenCount (updateSize l w sz) = fullscreenCount l := by
  refine fullscreenCount_map_mode l _ ?_
  intro p
  by_cases hp : (p.1 == w) = true <;> simp [hp]

theorem foldl_placeStep_wins (ptr : Pt) (off : Int) (fs : Option Nat)
    (placed : List ((Nat × Pt) × Rect)) (acc : LayoutAcc) :
    fullscreenCount ((placed.foldl (placeStep ptr off fs) acc).wins) =
      fullscreenCount acc.wins := by
  induction placed generalizing acc with
  | nil => rfl
  | cons e rest ih =>
      rw [List.foldl_cons, ih]
      unfold placeStep
      by_cases he : fs = some e.1.1
      · rw [if_pos he]
      · rw [if_neg he]
        exact fullscreenCount_updateSize _ _ _

theorem foldl_floatStep_wins (ptr : Pt) (ws : List Nat) (acc : LayoutAcc) :
    (ws.foldl (floatStep ptr) acc).wins = acc.wins := by
  induction ws generalizing acc with
  | nil => rfl
  | cons w rest ih =>
      rw [List.foldl_cons, ih]
      unfold floatStep
      cases elementGeometry acc.elems acc.wins w <;> rfl

theorem fullscreenCount_refreshLayout (s : XState) :
    fullscreenCount (refreshLayout s).wins = fullscreenCount s.wins := by
  rw [refreshLayout]
  split
  · rfl
  · dsimp only
    rw [foldl_floatStep_wins, foldl_placeStep_wins]

theorem is_fullscreen_some (elems : List (Nat × Pt))
    (wins : List (Nat × WinState)) (fw : Nat)
    (h : is_fullscreen elems wins = some fw) :
    ∃ st, lookupEntry wins fw = some st ∧ isFullscreenMode st.mode = true := by
  induction elems with
  | nil => simp [is_fullscreen] at h
  | cons p rest ih =>
      obtain ⟨w, pt⟩ := p
      simp only [is_fullscreen] at h
      cases hl : lookupEntry wins w with
      | none => simp only [hl] at h; exact Option.noConfusion h
      | some st =>
          simp only [hl] at h
          cases hm : st.mode with
          | fullscreen r =>
              simp only [hm] at h
              cases h
              exact ⟨st, hl, by rw [hm]; rfl⟩
          | tiled => simp only [hm] at h; exact ih h
          | floating => simp only [hm] at h; exact ih h
          | grabed r => simp only [hm] at h; exact ih h

theorem is_fullscreen_none (elems : List (Nat × Pt))
    (wins : List (Nat × WinState))
    (hkeys : ∀ p ∈ elems, (lookupEntry wins p.1).isSome = true)
    (h : is_fullscreen elems wins = none) :
    ∀ p ∈ elems, ∀ st, lookupEntry wins p.1 = some st →
      isFullscreenMode st.mode = false := by
  induction elems with
  | nil => intro p hp; simp at hp
  | cons q rest ih =>
      obtain ⟨w, pt⟩ := q
      simp only [is_fullscreen] at h
      intro p hp st hst
      cases hl : lookupEntry wins w with
      | none =>
          have := hkeys (w, pt) (by simp)
          simp only at this
          rw [hl] at this
          simp at this
      | some st0 =>
          simp only [hl] at h
          cases hm : st0.mode with
          | fullscreen r => simp only [hm] at h; exact Option.noConfusion h
          | tiled =>
              simp only [hm] at h
              rcases List.mem_cons.mp hp with hp | hp
              · subst hp
                simp only at hst
                rw [hl] at hst
                cases hst
                rw [hm]; rfl
              · exact ih (fun x hx => hkeys x (by simp [hx])) h p hp st hst
          | floating =>
              simp only [hm] at h
              rcases List.mem_cons.mp hp with hp | hp
              · subst hp
                simp only at hst
                rw [hl] at hst
                cases hst
                rw [hm]; rfl
              · exact ih (fun x hx => hkeys x (by simp [hx])) h p hp st hst
          | grabed r =>
              simp only [hm] at h
              rcases List.mem_cons.mp hp with hp | hp
              · subst hp
                simp only at hst
                rw [hl] at hst
                cases hst
                rw [hm]; rfl
              · exact ih (fun x hx => hkeys x (by simp [hx])) h p hp st hst

theorem any_key_mem (l : List (Nat × β)) (w : Nat)
    (h : l.any (fun p => p.1 == w) = true) : ∃ v, (w, v) ∈ l := by
  induction l with
  | nil => simp at h
  | cons q rest ih =>
      simp only [List.any_cons, Bool.or_eq_true] at h
      rcases h with h | h
      · refine ⟨q.2, ?_⟩
        have hq : q.1 = w := by simpa using h
        have : q = (w, q.2) := by
          rw [← hq]
        rw [← this]
        simp
      · obtain ⟨v, hv⟩ := ih h
        exact ⟨v, by simp [hv]⟩

/-- C3 (amended): the "at most one Fullscreen window per workspace"
invariant is preserved by the compositor's own keybinding path
(`Action::Fullscreen`), which un-fullscreens the existing fullscreen
window instead of fullscreening a second one; the protocol handler
`fullscreen_request` itself performs no resolution, so a direct client
request while another window is Fullscreen produces two Fullscreen
windows (see the counterexample). -/
theorem action_fullscreen_preserves_invariant (s s' : XState)
    (hkeys : ∀ p ∈ s.ws.elems, (lookupEntry s.wins p.1).isSome = true)
    (hcover : ∀ q ∈ s.wins, isFullscreenMode q.2.mode = true →
      s.ws.elems.any (fun p => p.1 == q.1) = true)
    (hnodW : (s.wins.map Prod.fst).Nodup)
    (hinv : fullscreenCount s.wins ≤ 1)
    (hrun : actionFullscreen s = some s') :
    fullscreenCount s'.wins ≤ 1 := by
  unfold actionFullscreen at hrun
  cases hact : s.ws.active_window with
  | none =>
      simp only [hact] at hrun
      cases hrun
      exact hinv
  | some active =>
      simp only [hact] at hrun
      cases hfs : is_fullscreen s.ws.elems s.wins with
      | some fw =>
          simp only [hfs] at hrun
          unfold unfullscreen_request at hrun
          cases hle : lookupEntry s.ws.elems fw with
          | none =>
              simp only [hle] at hrun
              exact Option.noConfusion hrun
          | some locw =>
              cases hlw : lookupEntry s.wins fw with
              | none =>
                  simp only [hle, hlw] at hrun
                  exact Option.noConfusion hrun
              | some st =>
                  simp only [hle, hlw] at hrun
                  cases hm : st.mode with
                  | fullscreen prev =>
                      simp only [hm] at hrun
                      cases hrun
                      rw [fullscreenCount_refreshLayout]
                      show fullscreenCount
                        (updateMode (updateSize s.wins fw prev.size) fw .tiled) ≤ 1
                      have hle1 : fullscreenCount
                          (updateMode (updateSize s.wins fw prev.size) fw .tiled) ≤
                          fullscreenCount s.wins := by
                        rw [updateMode, updateSize, List.map_map]
                        apply fullscreenCount_map_le
                        intro p hfp
                        by_cases hp : p.1 = fw
                        · simp [hp] at hfp
                          exact absurd hfp (by simp [isFullscreenMode])
                        · simpa [hp] using hfp
                      omega
                  | tiled => simp only [hm] at hrun; cases hrun; exact hinv
                  | floating => simp only [hm] at hrun; cases hrun; exact hinv
                  | grabed r => simp only [hm] at hrun; cases hrun; exact hinv
      | none =>
          simp only [hfs] at hrun
          unfold fullscreen_request at hrun
          cases hle : lookupEntry s.ws.elems active with
          | none =>
              simp only [hle] at hrun
              exact Option.noConfusion hrun
          | some loc =>
              cases hlw : lookupEntry s.wins active with
              | none =>
                  simp only [hle, hlw] at hrun
                  exact Option.noConfusion hrun
              | some st =>
                  simp only [hle, hlw] at hrun
                  cases hrun
                  show fullscreenCount
                    (updateSize
                      (setEntry s.wins active
                        (⟨st.size, .fullscreen ⟨loc, st.size⟩⟩ : WinState))
                      active s.ws.outputGeo.size) ≤ 1
                  have hzero : fullscreenCount s.wins = 0 := by
                    apply fullscreenCount_zero
                    intro q hq
                    cases hb : isFullscreenMode q.2.mode with
                    | false => rfl
                    | true =>
                        exfalso
                        obtain ⟨pt, hmem⟩ := any_key_mem _ _ (hcover q hq hb)
                        have hlq : lookupEntry s.wins q.1 = some q.2 :=
                          lookup_mem_nodup s.wins q hq hnodW
                        have hnf := is_fullscreen_none s.ws.elems s.wins hkeys hfs
                            (q.1, pt) hmem q.2 (by simpa using hlq)
                        rw [hnf] at hb
                        exact Bool.noConfusion hb
                  have hbound : fullscreenCount
                      (updateSize
                        (setEntry s.wins active
                          (⟨st.size, .fullscreen ⟨loc, st.size⟩⟩ : WinState))
                        active s.ws.outputGeo.size) ≤
                      fullscreenCount s.wins +
                        (s.wins.filter (fun p => p.1 == active)).length := by
                    rw [updateSize, setEntry, List.map_map]
                    apply fullscreenCount_map_key
                    intro p hp
                    simp [hp]
                  have hkc := keyCount_le_one s.wins active hnodW
                  omega

/-- Witness for the amended C3 on `c3State`: executing the Fullscreen
action while window 0 is fullscreen un-fullscreens it, keeping at most one
fullscreen window. -/
theorem action_fullscreen_preserves_invariant_witness :
    ∃ s', actionFullscreen c3State = some s' ∧ fullscreenCount s'.wins ≤ 1 := by
  cases hrun : actionFullscreen c3State with
  | none => exact absurd hrun (by decide)
  | some s' =>
      exact ⟨s', rfl,
        action_fullscreen_preserves_invariant c3State s' (by decide) (by decide)
          (by decide) (by decide) hrun⟩

/-! ## Frame-scheduling control flow (`State::render` in
`src/udev/surface.rs`, `State::on_drm_event` in `src/udev/mod.rs`)

The rendering itself is hardware territory; what the claims are about is
the decision logic: when a frame is queued, when a repaint timer is armed
and with which delay, and which outcomes escape the callback.  The
embedding abstracts the hardware results (`render_frame`, `queue_frame`,
the current mode) and models the decision flow exactly. -/

/-- `SwapBuffersError`, with the payload distinctions the control flow
inspects (`DrmError::DeviceInactive`, a permission-denied
`DrmError::Access`). -/
inductive SwapError where
  | alreadySwapped
  | temporaryDeviceInactive
  | temporaryPermissionDenied
  | temporaryOther
  | contextLost
deriving DecidableEq, Repr

deriving instance DecidableEq for Except

/-- What `State::render` decided: its returned result, whether a frame was
queued to hardware, and the delay (whole milliseconds) of the armed
repaint timer, if any. -/
structure RenderOutcome where
  result : Except SwapError Bool
  queued : Bool
  timerMillis : Option Nat
deriving DecidableEq, Repr

/-- The reschedule delay in whole milliseconds:
`(1_000_000f32 / output_refresh as f32) as u64`, where `output_refresh`
is the mode's refresh rate in mHz.  The `f32` division followed by the
`u64` cast is modelled as exact division truncated to a whole number of
milliseconds. -/
def rescheduleMillis (refresh : Nat) : Nat := 1000000 / refresh

/-- `State::render`'s submission/throttling control flow: `frame` is
`render_frame`'s outcome (`Ok` carries `is_empty`), `queue` is
`queue_frame`'s outcome (consulted only when there was damage), `refresh`
the output's current-mode refresh in mHz (`none`: no current mode, which
returns early without arming a timer). -/
def renderControl (frame : Except SwapError Bool)
    (queue : Except SwapError Unit) (refresh : Option Nat) : RenderOutcome :=
  let result0 : Except SwapError Bool :=
    match frame with
    | .ok is_empty => .ok (!is_empty)
    | .error e => .error e
  let step : Except SwapError Bool × Bool :=
    match result0 with
    | .ok rendered =>
        if rendered then
          match queue with
          | .ok _ => (Except.ok rendered, true)
          | .error e => (Except.error e, false)
        else (Except.ok rendered, false)
    | .error e => (Except.error e, false)
  let result := step.1
  let queued := step.2
  let reschedule : Bool :=
    match result with
    | .ok has_rendered => !has_rendered
    | .error e =>
        match e with
        | .alreadySwapped => false
        | .temporaryDeviceInactive => false
        | .temporaryPermissionDenied => true
        | .temporaryOther => false
        | .contextLost => false
  if reschedule then
    match refresh with
    | some r => { result := result, queued := queued
                  timerMillis := some (rescheduleMillis r) }
    | none => { result := result, queued := queued, timerMillis := none }
  else { result := result, queued := queued, timerMillis := none }

/-- `State::on_drm_event` for `DrmEvent::VBlank`: the device lookup, the
surface lookup and the render result are all `unwrap`ed.  An `error`
value models a panic unwinding out of the event-loop callback. -/
def on_drm_event_vblank (devicePresent surfacePresent : Bool)
    (render : Except SwapError Bool) : Except String Unit :=
  if !devicePresent then .error "unwrap on missing device"
  else if !surfacePresent then .error "unwrap on missing surface"
  else
    match render with
    | .ok _ => .ok ()
    | .error _ => .error "unwrap on render error"

/-- C5: the vblank handler `unwrap`s both the device lookup and `render`'s
result, so a device-inactive render error — which `render` itself treats
as a silent no-op (no reschedule) — panics the process instead of
returning normally, and a vblank for a device that already disappeared
panics on the lookup. -/
theorem vblank_unwrap_panics :
    on_drm_event_vblank true true (.error .temporaryDeviceInactive) =
      .error "unwrap on render error" ∧
    on_drm_event_vblank false true (.ok true) =
      .error "unwrap on missing device" ∧
    (renderControl (.error .temporaryDeviceInactive) (.ok ())
      (some 60000)).timerMillis = none :=
  ⟨rfl, rfl, rfl⟩

/-- C8 counterexample: at 60 Hz (`refresh = 60000` mHz) a no-damage render
arms the repaint timer with 16 ms = 16000 µs, while the claim's formula
`1_000_000 / refresh_hz` gives 16666 µs. -/
theorem reschedule_delay_counterexample :
    renderControl (.ok true) (.ok ()) (some 60000) =
      { result := .ok false, queued := false, timerMillis := some 16 } ∧
    16 * 1000 ≠ 1000000 / 60 :=
  ⟨by decide, by decide⟩

/-- C8 (amended): when the render pass reports had-damage = false, no
frame is queued and a one-shot repaint timer is armed with delay
`1_000_000 / refresh_mHz` whole MILLIseconds — approximately, not exactly,
one refresh interval, because of the truncation to milliseconds; when
had-damage = true and the queue succeeds, the frame is queued and no
timer is armed. -/
theorem render_damage_reschedule (queue : Except SwapError Unit) (r : Nat)
    (refresh : Option Nat) :
    renderControl (.ok true) queue (some r) =
      { result := .ok false, queued := false
        timerMillis := some (rescheduleMillis r) } ∧
    renderControl (.ok false) (.ok ()) refresh =
      { result := .ok true, queued := true, timerMillis := none } :=
  ⟨rfl, rfl⟩

end KowinWm
